import Mathlib

set_option maxHeartbeats 1000000

/-!
Verification development for the desktop backend command layer
(`apps/desktop/src-tauri/src/main.rs`): shallow embedding of the path
resolution helpers, the font discovery service, the PNG listing walk,
the base64 file transfer commands and the pipeline runner, together with
proofs about the properties stated in the specification.

Rust strings are modelled as Lean `String` (lists of Unicode scalar
values; byte-wise UTF-8 comparison agrees with scalar-value comparison),
bytes as `Nat` values below 256, and OS interactions (child processes,
the filesystem) as explicit outcome parameters or explicit state.
-/

/-! Character and string helpers mirroring the Rust standard library. -/

/-- The Unicode White_Space property, as used by Rust `char::is_whitespace`. -/
def isRustWhitespace (c : Char) : Bool :=
  c.toNat = 0x09 || c.toNat = 0x0A || c.toNat = 0x0B || c.toNat = 0x0C || c.toNat = 0x0D ||
  c.toNat = 0x20 || c.toNat = 0x85 || c.toNat = 0xA0 || c.toNat = 0x1680 ||
  (0x2000 ≤ c.toNat && c.toNat ≤ 0x200A) ||
  c.toNat = 0x2028 || c.toNat = 0x2029 || c.toNat = 0x202F || c.toNat = 0x205F ||
  c.toNat = 0x3000

/-- Drop leading and trailing whitespace from a character list (Rust `str::trim`). -/
def trimList (l : List Char) : List Char :=
  ((l.dropWhile isRustWhitespace).reverse.dropWhile isRustWhitespace).reverse

/-- Rust `str::trim`. -/
def rustTrim (s : String) : String := String.mk (trimList s.toList)

/-- Strict lexicographic comparison of character lists (Rust `str` ordering:
byte-wise comparison of UTF-8, equivalent to scalar-value order). -/
def charListLtB : List Char → List Char → Bool
  | [], [] => false
  | [], _ :: _ => true
  | _ :: _, [] => false
  | a :: as, b :: bs => if a < b then true else if b < a then false else charListLtB as bs

/-- Rust `str` strict ordering. -/
def strLtB (a b : String) : Bool := charListLtB a.toList b.toList

/-- Whether the first list is an initial segment of the second. -/
def leadsList : List Char → List Char → Bool
  | [], _ => true
  | _ :: _, [] => false
  | a :: as, b :: bs => a == b && leadsList as bs

/-- Whether `pat` occurs contiguously inside the second list. -/
def containsList (pat : List Char) : List Char → Bool
  | [] => leadsList pat []
  | c :: rest => leadsList pat (c :: rest) || containsList pat rest

/-- Whether `pat` occurs as a substring of `s` (Rust `str::contains`). -/
def containsStr (s pat : String) : Bool := containsList pat.toList s.toList

/-- Rust `str::strip_prefix`: remove `pat` from the front of `s` when present. -/
def stripLead (s pat : String) : Option String :=
  if leadsList pat.toList s.toList then some (String.mk (s.toList.drop pat.toList.length))
  else none

/-- Split a character list at every occurrence of `sep` (Rust `split`). -/
def splitChar (sep : Char) : List Char → List (List Char)
  | [] => [[]]
  | c :: rest =>
    let groups := splitChar sep rest
    if c = sep then [] :: groups
    else
      match groups with
      | g :: gs => (c :: g) :: gs
      | [] => [[c]]

/-- Unix `Path::is_absolute`: the path has a root, i.e. starts with a slash. -/
def isAbsolutePath (p : String) : Bool :=
  match p.toList with
  | '/' :: _ => true
  | _ => false

/-- Rust `PathBuf::join` for the cases the backend exercises: an absolute
argument replaces the base, otherwise a separator is inserted as needed. -/
def joinPath (base p : String) : String :=
  if isAbsolutePath p then p
  else if base.toList.getLast? == some '/' then base ++ p
  else base ++ "/" ++ p

/-- `resolve_project_path` from the source: absolute inputs pass through,
relative inputs are joined onto the project root. -/
def resolve_project_path (root input : String) : String :=
  if isAbsolutePath input then input else joinPath root input

/-- The components of a slash-separated path. -/
def pathComps (p : String) : List String := (splitChar '/' p.toList).map String.mk

/-- Rebuild a path from components. -/
def joinComps (comps : List String) : String := String.intercalate "/" comps

/-- Rust `Path::parent`: drop the final component; `None` for the root or
the empty path. -/
def parentPath (p : String) : Option String :=
  if p = "" || p = "/" then none
  else some (joinComps (pathComps p).dropLast)

/-- Component-wise path comparison (Rust `PathBuf` ordering). -/
def compsLt : List String → List String → Bool
  | [], [] => false
  | [], _ :: _ => true
  | _ :: _, [] => false
  | a :: as, b :: bs => if strLtB a b then true else if strLtB b a then false else compsLt as bs

/-- Strict ordering of paths by components. -/
def pathLt (a b : String) : Bool := compsLt (pathComps a) (pathComps b)

/-- Insert a path into an already sorted list of paths. -/
def insertPath (p : String) : List String → List String
  | [] => [p]
  | q :: rest => if pathLt p q then p :: q :: rest else q :: insertPath p rest

/-- Sort collected paths (Rust `Vec::sort` on `PathBuf`). -/
def sortPaths (files : List String) : List String :=
  files.foldl (fun acc f => insertPath f acc) []

/-- Whether the first component list is an initial segment of the second. -/
def leadsComps : List String → List String → Bool
  | [], _ => true
  | _ :: _, [] => false
  | a :: as, b :: bs => a == b && leadsComps as bs

/-- Rust `Path::strip_prefix` composed with the `unwrap_or_else` in
`list_png_files`: relative remainder when `root` is a component prefix of
`file`, the full path otherwise. -/
def stripRootPath (root file : String) : String :=
  let rc := pathComps root
  let fc := pathComps file
  if leadsComps rc fc then joinComps (fc.drop rc.length) else file

/-- Rust `str::replace` with the single-character pattern `\` and
replacement `/`. -/
def replaceBackslash (s : String) : String :=
  String.mk (s.toList.map (fun c => if c = '\\' then '/' else c))

/-- No backslash occurs in the string. -/
def noBackslash (s : String) : Bool := !(s.toList.contains '\\')

/-- Rust `u8::to_ascii_lowercase` lifted to characters. -/
def asciiLower (c : Char) : Char :=
  if 'A' ≤ c ∧ c ≤ 'Z' then Char.ofNat (c.toNat + 32) else c

/-- Rust `str::eq_ignore_ascii_case`. -/
def eqIgnoreAsciiCase (a b : String) : Bool :=
  a.toList.map asciiLower == b.toList.map asciiLower

/-- Rust `Path::extension` on a file name: the part after the last dot,
none when there is no dot or the only dot is the leading one. -/
def extensionOf (name : String) : Option String :=
  match (splitChar '.' name.toList).map String.mk with
  | [] => none
  | [_] => none
  | first :: rest => if first = "" ∧ rest.length = 1 then none else rest.getLast?

/-- The extension test from `collect_png_files`. -/
def isPngName (name : String) : Bool :=
  match extensionOf name with
  | some ext => eqIgnoreAsciiCase ext "png"
  | none => false

/-- Rust `str::lines`: split on newlines, drop a final empty line, strip a
trailing carriage return from every line. -/
def rustLines (s : String) : List String :=
  let parts := (splitChar '\n' s.toList).map String.mk
  let parts := if parts.getLast? == some "" then parts.dropLast else parts
  parts.map (fun line =>
    match line.toList.getLast? with
    | some '\r' => String.mk line.toList.dropLast
    | _ => line)

/-! The font discovery service. -/

/-- `fallback_font_list` from the source, in its hardcoded order. -/
def fallback_font_list : List String :=
  ["SF Pro", "SF Pro Display", "SF Pro Text", "Apple SD Gothic Neo", "Helvetica Neue",
   "Arial", "Noto Sans", "Roboto", "Inter"]

/-- `BTreeSet::insert` on a sorted duplicate-free list of strings. -/
def insertSorted (s : String) : List String → List String
  | [] => [s]
  | x :: xs =>
    if strLtB s x then s :: x :: xs
    else if strLtB x s then x :: insertSorted s xs
    else x :: xs

/-- The trimming/deduplicating loop of `normalize_font_list`: trim each
name, discard empties, accumulate into an ordered set. -/
def dedupSort (fonts : List String) : List String :=
  fonts.foldl (fun acc font =>
    let trimmed := rustTrim font
    if trimmed = "" then acc else insertSorted trimmed acc) []

/-- `normalize_font_list` from the source. -/
def normalize_font_list (fonts : List String) : List String :=
  let unique := dedupSort fonts
  if unique = [] then fallback_font_list else unique

/-- Outcome of spawning a child process and waiting for its output: the
spawn itself can fail, otherwise the process exits with a success flag and
captured stdout/stderr (modelled after lossy UTF-8 conversion). -/
inductive SpawnOutcome where
  | spawnFailure (osError : String)
  | exited (success : Bool) (stdout : String) (stderr : String)

/-- The macOS parsing loop of `collect_system_fonts`: collect the values of
lines with prefixes `Full Name:` and `Family:` from `system_profiler`
output. -/
def parse_system_profiler (raw : String) : List String :=
  (rustLines raw).foldl (fun fonts line =>
    let trimmed := rustTrim line
    match stripLead trimmed "Full Name:" with
    | some name => fonts ++ [rustTrim name]
    | none =>
      match stripLead trimmed "Family:" with
      | some name => fonts ++ [rustTrim name]
      | none => fonts) []

/-- `collect_system_fonts` (the active macOS branch), as a function of the
outcome of the `system_profiler` spawn. -/
def collect_system_fonts (q : SpawnOutcome) : Except String (List String) :=
  match q with
  | .spawnFailure osError => .error ("failed to execute system_profiler: " ++ osError)
  | .exited success stdout stderr =>
    if success then .ok (normalize_font_list (parse_system_profiler stdout))
    else .error stderr

/-- `list_system_fonts`: any discovery error is replaced by the fallback
list. -/
def list_system_fonts (q : SpawnOutcome) : List String :=
  match collect_system_fonts q with
  | .ok fonts => fonts
  | .error _ => fallback_font_list

/-- The OS query failed, or it succeeded but normalization retained no
usable name. -/
def fontQueryFailedOrEmpty (q : SpawnOutcome) : Bool :=
  match q with
  | .spawnFailure _ => true
  | .exited success stdout _ => !success || dedupSort (parse_system_profiler stdout) == []

/-- Strictly sorted in the Rust string order. -/
def sortedLtB : List String → Bool
  | [] => true
  | [_] => true
  | a :: b :: rest => strLtB a b && sortedLtB (b :: rest)

/-- A font name as the specification describes one: non-empty and equal to
its own trim. -/
def goodFontName (s : String) : Bool := (s != "") && (rustTrim s == s)

/-! The PNG listing walk. -/

/-- A directory tree as `fs::read_dir` exposes it: named files and named
subdirectories. -/
inductive FsEntry where
  | file (name : String)
  | dir (name : String) (entries : List FsEntry)

/-- `collect_png_files`: recursive walk accumulating full paths of entries
whose extension matches `png` case-insensitively. -/
def collect_png_files : String → List FsEntry → List String
  | _, [] => []
  | base, .file name :: rest =>
    (if isPngName name then [joinPath base name] else []) ++ collect_png_files base rest
  | base, .dir name sub :: rest =>
    collect_png_files (joinPath base name) sub ++ collect_png_files base rest

/-- `list_png_files`: resolve the input path; when the resolved directory is
absent return the empty list, otherwise walk it, sort, strip the project
root and normalize separators. `present` states whether the resolved path
exists and `entries` gives its contents when it does. -/
def list_png_files (root : String) (present : Bool) (entries : List FsEntry)
    (path : String) : List String :=
  let resolved := resolve_project_path root path
  if present then
    (sortPaths (collect_png_files resolved entries)).map
      (fun f => replaceBackslash (stripRootPath root f))
  else []

/-! Base64 (RFC 4648 standard alphabet with padding, as implemented by the
`base64` crate engine `general_purpose::STANDARD`). -/

/-- The standard base64 alphabet. -/
def b64Char (n : Nat) : Char :=
  if n < 26 then Char.ofNat (65 + n)
  else if n < 52 then Char.ofNat (97 + (n - 26))
  else if n < 62 then Char.ofNat (48 + (n - 52))
  else if n = 62 then '+'
  else '/'

/-- Inverse of the standard base64 alphabet. -/
def b64Val (c : Char) : Option Nat :=
  if 'A' ≤ c ∧ c ≤ 'Z' then some (c.toNat - 65)
  else if 'a' ≤ c ∧ c ≤ 'z' then some (c.toNat - 97 + 26)
  else if '0' ≤ c ∧ c ≤ '9' then some (c.toNat - 48 + 52)
  else if c = '+' then some 62
  else if c = '/' then some 63
  else none

/-- Standard padded base64 encoding of a byte sequence. -/
def encodeB64 : List Nat → List Char
  | [] => []
  | [a] => [b64Char (a / 4), b64Char (a % 4 * 16), '=', '=']
  | [a, b] => [b64Char (a / 4), b64Char (a % 4 * 16 + b / 16), b64Char (b % 16 * 4), '=']
  | a :: b :: c :: rest =>
    b64Char (a / 4) :: b64Char (a % 4 * 16 + b / 16) :: b64Char (b % 16 * 4 + c / 64) ::
      b64Char (c % 64) :: encodeB64 rest

/-- Standard padded base64 decoding: four symbols per group, padding only in
the final group, canonical trailing bits required. -/
def decodeB64 : List Char → Except String (List Nat)
  | [] => .ok []
  | c1 :: c2 :: c3 :: c4 :: rest =>
    if rest = [] ∧ c3 = '=' ∧ c4 = '=' then
      match b64Val c1, b64Val c2 with
      | some s1, some s2 =>
        if s2 % 16 = 0 then .ok [s1 * 4 + s2 / 16]
        else .error "Invalid trailing bits"
      | _, _ => .error "Invalid symbol"
    else if rest = [] ∧ c4 = '=' then
      match b64Val c1, b64Val c2, b64Val c3 with
      | some s1, some s2, some s3 =>
        if s3 % 4 = 0 then .ok [s1 * 4 + s2 / 16, s2 % 16 * 16 + s3 / 4]
        else .error "Invalid trailing bits"
      | _, _, _ => .error "Invalid symbol"
    else
      match b64Val c1, b64Val c2, b64Val c3, b64Val c4 with
      | some s1, some s2, some s3, some s4 =>
        match decodeB64 rest with
        | .ok tail =>
          .ok ((s1 * 4 + s2 / 16) :: (s2 % 16 * 16 + s3 / 4) :: (s3 % 4 * 64 + s4) :: tail)
        | .error e => .error e
      | _, _, _, _ => .error "Invalid symbol"
  | _ => .error "Invalid length"

/-! Filesystem state for the base64 transfer commands. -/

/-- Explicit filesystem state: file contents keyed by path, plus the set of
directories known to exist. -/
structure SimFS where
  files : List (String × List Nat)
  dirs : List String

/-- Look up a file's bytes; the most recent write shadows older entries. -/
def findFile (files : List (String × List Nat)) (p : String) : Option (List Nat) :=
  match files with
  | [] => none
  | (q, bs) :: rest => if q = p then some bs else findFile rest p

/-- `read_file_base64`: read the resolved file and base64-encode its bytes;
`osError` is the OS error text when the read fails. -/
def read_file_base64 (fs : SimFS) (root path osError : String) : Except String String :=
  let resolved := resolve_project_path root path
  match findFile fs.files resolved with
  | some bytes => .ok (String.mk (encodeB64 bytes))
  | none => .error ("failed to read " ++ resolved ++ ": " ++ osError)

/-- `write_file_base64`: resolve the path, create the parent directories,
then decode the payload and write the bytes. Returns the updated filesystem
together with the command result. -/
def write_file_base64 (fs : SimFS) (root path dataB64 : String) :
    SimFS × Except String Unit :=
  let resolved := resolve_project_path root path
  let fs1 :=
    match parentPath resolved with
    | some parent => { fs with dirs := parent :: fs.dirs }
    | none => fs
  match decodeB64 dataB64.toList with
  | .error e => (fs1, .error ("failed to decode base64: " ++ e))
  | .ok bytes => ({ fs1 with files := (resolved, bytes) :: fs1.files }, .ok ())

/-! Text file commands and the pipeline runner, as functions of the OS
outcomes they compose. -/

/-- `read_text_file`: wrap a read failure in a message naming the resolved
path and the OS error. -/
def read_text_file (root path : String) (readResult : Except String String) :
    Except String String :=
  let resolved := resolve_project_path root path
  match readResult with
  | .ok content => .ok content
  | .error osError => .error ("failed to read " ++ resolved ++ ": " ++ osError)

/-- `write_text_file`: create the parent directories when the resolved path
has a parent, then write; each failure is wrapped in its own message. -/
def write_text_file (root path content : String) (mkdirResult : Except String Unit)
    (writeResult : Except String Unit) : Except String Unit :=
  let resolved := resolve_project_path root path
  match parentPath resolved with
  | some _ =>
    match mkdirResult with
    | .error e => .error ("failed to create parent dirs: " ++ e)
    | .ok _ =>
      match writeResult with
      | .error e => .error ("failed to write " ++ resolved ++ ": " ++ e)
      | .ok _ => .ok ()
  | none =>
    match writeResult with
    | .error e => .error ("failed to write " ++ resolved ++ ": " ++ e)
    | .ok _ => .ok ()

/-- `run_pipeline`: spawn the node pipeline script; a spawn failure and a
non-zero exit are errors, a zero exit returns captured stdout. -/
def run_pipeline (command : String) (args : List String) (r : SpawnOutcome) :
    Except String String :=
  match r with
  | .spawnFailure e => .error ("failed to execute node: " ++ e)
  | .exited true stdout _ => .ok stdout
  | .exited false _ stderr => .error stderr

/-! Helper lemmas: string append and substring occurrence. -/

theorem strAppend_assoc (a b c : String) : a ++ b ++ c = a ++ (b ++ c) := by
  apply String.ext; simp [String.data_append]

theorem leadsList_append (l t : List Char) : leadsList l (l ++ t) = true := by
  induction l with
  | nil => rfl
  | cons a as ih => simp [leadsList, ih]

theorem containsList_here (p suf : List Char) : containsList p (p ++ suf) = true := by
  cases h : p ++ suf with
  | nil =>
    have hp : p = [] := by cases p <;> simp_all
    subst hp
    simp_all [containsList, leadsList]
  | cons c rest =>
    rw [containsList, ← h, leadsList_append]
    rfl

theorem containsList_cons (p : List Char) (c : Char) (l : List Char)
    (h : containsList p l = true) : containsList p (c :: l) = true := by
  rw [containsList, h, Bool.or_true]

theorem containsList_pre (p pre suf : List Char) :
    containsList p (pre ++ (p ++ suf)) = true := by
  induction pre with
  | nil => simpa using containsList_here p suf
  | cons c cs ih => simpa using containsList_cons _ c _ ih

theorem containsStr_append (pre pat suf : String) :
    containsStr (pre ++ pat ++ suf) pat = true := by
  unfold containsStr
  have h : (pre ++ pat ++ suf).toList = pre.toList ++ (pat.toList ++ suf.toList) := by
    simp [String.toList, String.data_append]
  rw [h]
  exact containsList_pre _ _ _

theorem containsStr_self (s : String) : containsStr s s = true := by
  have h := containsStr_append "" s ""
  simpa using h

/-! Helper lemmas: the strict string order used by the ordered set. -/

theorem charListLtB_irrefl (l : List Char) : charListLtB l l = false := by
  induction l with
  | nil => rfl
  | cons a as ih => simp [charListLtB, ih]

theorem charListLtB_eq_of_not (a : List Char) : ∀ b, charListLtB a b = false →
    charListLtB b a = false → a = b := by
  induction a with
  | nil =>
    intro b h1 _
    cases b with
    | nil => rfl
    | cons c cs => simp [charListLtB] at h1
  | cons x xs ih =>
    intro b h1 h2
    cases b with
    | nil => simp [charListLtB] at h2
    | cons y ys =>
      simp only [charListLtB] at h1 h2
      by_cases hxy : x < y
      · simp [hxy] at h1
      · by_cases hyx : y < x
        · simp [hyx, hxy] at h2
        · have hx : x = y := le_antisymm (not_lt.mp hyx) (not_lt.mp hxy)
          subst hx
          simp only [lt_irrefl, if_neg (lt_irrefl x).elim, if_false] at h1 h2
          rw [ih ys (by simpa using h1) (by simpa using h2)]

theorem charListLtB_trans (a : List Char) : ∀ b c, charListLtB a b = true →
    charListLtB b c = true → charListLtB a c = true := by
  induction a with
  | nil =>
    intro b c h1 h2
    cases b with
    | nil => simp [charListLtB] at h1
    | cons y ys =>
      cases c with
      | nil => simp [charListLtB] at h2
      | cons z zs => rfl
  | cons x xs ih =>
    intro b c h1 h2
    cases b with
    | nil => simp [charListLtB] at h1
    | cons y ys =>
      cases c with
      | nil => simp [charListLtB] at h2
      | cons z zs =>
        simp only [charListLtB] at h1 h2 ⊢
        by_cases hxy : x < y
        · by_cases hyz : y < z
          · simp [lt_trans hxy hyz]
          · by_cases hzy : z < y
            · simp [hyz, hzy] at h2
            · have hy : y = z := le_antisymm (not_lt.mp hzy) (not_lt.mp hyz)
              subst hy
              simp [hxy]
        · by_cases hyx : y < x
          · simp [hxy, hyx] at h1
          · have hx : x = y := le_antisymm (not_lt.mp hyx) (not_lt.mp hxy)
            subst hx
            simp only [lt_irrefl, if_neg (lt_irrefl x).elim, if_false] at h1
            by_cases hxz : x < z
            · simp [hxz]
            · by_cases hzx : z < x
              · simp [hxz, hzx] at h2
              · have hz : x = z := le_antisymm (not_lt.mp hzx) (not_lt.mp hxz)
                subst hz
                simp only [lt_irrefl, if_neg (lt_irrefl x).elim, if_false] at h2 ⊢
                exact ih ys zs h1 h2

theorem strLtB_irrefl (s : String) : strLtB s s = false := charListLtB_irrefl _

theorem strLtB_eq_of_not (a b : String) (h1 : strLtB a b = false)
    (h2 : strLtB b a = false) : a = b :=
  String.ext (charListLtB_eq_of_not a.toList b.toList h1 h2)

theorem strLtB_trans (a b c : String) (h1 : strLtB a b = true)
    (h2 : strLtB b c = true) : strLtB a c = true :=
  charListLtB_trans a.toList b.toList c.toList h1 h2

/-! Helper lemmas: trimming is idempotent. -/

theorem dropWhile_head_false {p : Char → Bool} {l : List Char}
    (h : ∀ c, l.head? = some c → p c = false) : l.dropWhile p = l := by
  cases l with
  | nil => rfl
  | cons a as => simp [List.dropWhile_cons, h a rfl]

theorem head_dropWhile_false (p : Char → Bool) (l : List Char) (c : Char)
    (h : (l.dropWhile p).head? = some c) : p c = false := by
  induction l with
  | nil => simp [List.dropWhile] at h
  | cons a as ih =>
    rw [List.dropWhile_cons] at h
    by_cases hp : p a
    · rw [if_pos hp] at h
      exact ih h
    · rw [if_neg hp] at h
      simp at h
      subst h
      simpa using hp

theorem getLast?_dropWhile (p : Char → Bool) (l : List Char)
    (h : l.dropWhile p ≠ []) : (l.dropWhile p).getLast? = l.getLast? := by
  induction l with
  | nil => simp [List.dropWhile] at h
  | cons a as ih =>
    rw [List.dropWhile_cons]
    rw [List.dropWhile_cons] at h
    by_cases hp : p a
    · rw [if_pos hp] at h ⊢
      rw [ih h]
      have has : as ≠ [] := by
        intro he
        subst he
        simp [List.dropWhile] at h
      cases as with
      | nil => exact absurd rfl has
      | cons b bs => exact List.getLast?_cons_cons.symm
    · rw [if_neg hp]

theorem trimList_idem (l : List Char) : trimList (trimList l) = trimList l := by
  unfold trimList
  by_cases h2 : (l.dropWhile isRustWhitespace).reverse.dropWhile isRustWhitespace = []
  · rw [h2]
    rfl
  · set l1 := l.dropWhile isRustWhitespace with hl1
    set l2 := l1.reverse.dropWhile isRustWhitespace with hl2
    have hl1ne : l1.reverse ≠ [] := by
      intro he
      rw [hl2, he] at h2
      simp [List.dropWhile] at h2
    have hstep1 : l2.reverse.dropWhile isRustWhitespace = l2.reverse := by
      apply dropWhile_head_false
      intro c hc
      rw [List.head?_reverse] at hc
      rw [hl2, getLast?_dropWhile _ _ h2, List.getLast?_reverse] at hc
      exact head_dropWhile_false _ _ _ (hl1 ▸ hc)
    rw [hstep1, List.reverse_reverse]
    have hstep2 : l2.dropWhile isRustWhitespace = l2 := by
      apply dropWhile_head_false
      intro c hc
      exact head_dropWhile_false _ _ _ (hl2 ▸ hc)
    rw [hstep2]

theorem rustTrim_idem (s : String) : rustTrim (rustTrim s) = rustTrim s := by
  unfold rustTrim
  exact congrArg String.mk (trimList_idem s.toList)

/-! Helper lemmas: the ordered font set. -/

theorem sortedLtB_tail (a : String) (l : List String) (h : sortedLtB (a :: l) = true) :
    sortedLtB l = true := by
  cases l with
  | nil => rfl
  | cons b bs =>
    rw [sortedLtB, Bool.and_eq_true] at h
    exact h.2

theorem sortedLtB_cons (a : String) (l : List String) :
    sortedLtB (a :: l) = true ↔
      (∀ c, l.head? = some c → strLtB a c = true) ∧ sortedLtB l = true := by
  cases l with
  | nil => simp [sortedLtB]
  | cons b bs =>
    rw [sortedLtB, Bool.and_eq_true]
    constructor
    · rintro ⟨h1, h2⟩
      refine ⟨?_, h2⟩
      intro c hc
      simp at hc
      subst hc
      exact h1
    · rintro ⟨h1, h2⟩
      exact ⟨h1 b rfl, h2⟩

theorem head?_insertSorted (s : String) (l : List String) :
    (insertSorted s l).head? = some s ∨ (insertSorted s l).head? = l.head? := by
  cases l with
  | nil => left; rfl
  | cons y ys =>
    by_cases h1 : strLtB s y = true
    · left
      simp [insertSorted, h1]
    · by_cases h2 : strLtB y s = true
      · right
        simp [insertSorted, h1, h2]
      · right
        simp [insertSorted, h1, h2]

theorem mem_insertSorted (x s : String) (l : List String) :
    x ∈ insertSorted s l ↔ x = s ∨ x ∈ l := by
  induction l with
  | nil => simp [insertSorted]
  | cons y ys ih =>
    by_cases h1 : strLtB s y = true
    · simp [insertSorted, h1]
    · by_cases h2 : strLtB y s = true
      · simp [insertSorted, h1, h2, ih]
        tauto
      · have hsy : s = y := strLtB_eq_of_not s y (by simpa using h1) (by simpa using h2)
        subst hsy
        simp [insertSorted, h1, h2]

theorem sortedLtB_insertSorted (s : String) (l : List String)
    (h : sortedLtB l = true) : sortedLtB (insertSorted s l) = true := by
  induction l with
  | nil => rfl
  | cons y ys ih =>
    by_cases h1 : strLtB s y = true
    · show sortedLtB (if strLtB s y then s :: y :: ys else _) = true
      rw [if_pos h1]
      rw [sortedLtB, Bool.and_eq_true]
      exact ⟨h1, h⟩
    · by_cases h2 : strLtB y s = true
      · show sortedLtB (if strLtB s y then _ else if strLtB y s then y :: insertSorted s ys else _) = true
        rw [if_neg h1, if_pos h2]
        have hys := sortedLtB_tail y ys h
        rw [sortedLtB_cons]
        refine ⟨?_, ih hys⟩
        intro c hc
        rcases head?_insertSorted s ys with hh | hh
        · rw [hh] at hc
          simp at hc
          subst hc
          exact h2
        · rw [hh] at hc
          exact ((sortedLtB_cons y ys).mp h).1 c hc
      · show sortedLtB (if strLtB s y then _ else if strLtB y s then _ else y :: ys) = true
        rw [if_neg h1, if_neg h2]
        exact h

theorem sortedLtB_head_lt (a : String) (l : List String) (h : sortedLtB (a :: l) = true) :
    ∀ x ∈ l, strLtB a x = true := by
  induction l generalizing a with
  | nil => simp
  | cons b bs ih =>
    intro x hx
    have h1 : strLtB a b = true := ((sortedLtB_cons a (b :: bs)).mp h).1 b rfl
    have h2 : sortedLtB (b :: bs) = true := ((sortedLtB_cons a (b :: bs)).mp h).2
    rcases List.mem_cons.mp hx with rfl | hx
    · exact h1
    · exact strLtB_trans a b x h1 (ih b h2 x hx)

theorem sortedLtB_nodup (l : List String) (h : sortedLtB l = true) : l.Nodup := by
  induction l with
  | nil => simp
  | cons a as ih =>
    refine List.nodup_cons.mpr ⟨?_, ih (sortedLtB_tail a as h)⟩
    intro hmem
    have hlt := sortedLtB_head_lt a as h a hmem
    rw [strLtB_irrefl] at hlt
    exact Bool.false_ne_true hlt

theorem dedupSort_aux (l : List String) : ∀ acc : List String,
    sortedLtB acc = true → (∀ x ∈ acc, goodFontName x = true) →
    sortedLtB (l.foldl (fun acc font =>
        let trimmed := rustTrim font
        if trimmed = "" then acc else insertSorted trimmed acc) acc) = true ∧
    (∀ x ∈ l.foldl (fun acc font =>
        let trimmed := rustTrim font
        if trimmed = "" then acc else insertSorted trimmed acc) acc,
      goodFontName x = true) := by
  induction l with
  | nil => intro acc h1 h2; exact ⟨h1, h2⟩
  | cons f fs ih =>
    intro acc h1 h2
    simp only [List.foldl_cons]
    by_cases hf : rustTrim f = ""
    · simpa [hf] using ih acc h1 h2
    · have hstep1 : sortedLtB (insertSorted (rustTrim f) acc) = true :=
        sortedLtB_insertSorted _ _ h1
      have hstep2 : ∀ x ∈ insertSorted (rustTrim f) acc, goodFontName x = true := by
        intro x hx
        rcases (mem_insertSorted x _ acc).mp hx with rfl | hx
        · unfold goodFontName
          rw [rustTrim_idem]
          simp [hf]
        · exact h2 x hx
      simpa [hf] using ih (insertSorted (rustTrim f) acc) hstep1 hstep2

theorem dedupSort_sorted (l : List String) : sortedLtB (dedupSort l) = true :=
  (dedupSort_aux l [] rfl (by simp)).1

theorem dedupSort_good (l : List String) : ∀ x ∈ dedupSort l, goodFontName x = true :=
  (dedupSort_aux l [] rfl (by simp)).2

/-! Helper lemmas: base64 decoding inverts encoding. -/

theorem b64Val_b64Char : ∀ n, n < 64 → b64Val (b64Char n) = some n := by decide

theorem b64Char_ne_pad : ∀ n, n < 64 → b64Char n ≠ '=' := by decide

theorem decode_encode : (l : List Nat) → (∀ b ∈ l, b < 256) →
    decodeB64 (encodeB64 l) = .ok l
  | [], _ => rfl
  | [a], h => by
    have ha : a < 256 := h a (by simp)
    have h1 : b64Val (b64Char (a / 4)) = some (a / 4) := b64Val_b64Char _ (by omega)
    have h2 : b64Val (b64Char (a % 4 * 16)) = some (a % 4 * 16) := b64Val_b64Char _ (by omega)
    have e0 : a % 4 * 16 % 16 = 0 := by omega
    have e1 : a / 4 * 4 + a % 4 * 16 / 16 = a := by omega
    simp [encodeB64, decodeB64, h1, h2, e0, e1]
    omega
  | [a, b], h => by
    have ha : a < 256 := h a (by simp)
    have hb : b < 256 := h b (by simp)
    have h1 : b64Val (b64Char (a / 4)) = some (a / 4) := b64Val_b64Char _ (by omega)
    have h2 : b64Val (b64Char (a % 4 * 16 + b / 16)) = some (a % 4 * 16 + b / 16) :=
      b64Val_b64Char _ (by omega)
    have h3 : b64Val (b64Char (b % 16 * 4)) = some (b % 16 * 4) := b64Val_b64Char _ (by omega)
    have hne3 : b64Char (b % 16 * 4) ≠ '=' := b64Char_ne_pad _ (by omega)
    have e0 : b % 16 * 4 % 4 = 0 := by omega
    have e1 : a / 4 * 4 + (a % 4 * 16 + b / 16) / 16 = a := by omega
    have e2 : (a % 4 * 16 + b / 16) % 16 * 16 + b % 16 * 4 / 4 = b := by omega
    simp [encodeB64, decodeB64, h1, h2, h3, hne3, e0, e1, e2]
    omega
  | a :: b :: c :: rest, h => by
    have ha : a < 256 := h a (by simp)
    have hb : b < 256 := h b (by simp)
    have hc : c < 256 := h c (by simp)
    have hrest : ∀ x ∈ rest, x < 256 := fun x hx => h x (by simp [hx])
    have ih := decode_encode rest hrest
    have h1 : b64Val (b64Char (a / 4)) = some (a / 4) := b64Val_b64Char _ (by omega)
    have h2 : b64Val (b64Char (a % 4 * 16 + b / 16)) = some (a % 4 * 16 + b / 16) :=
      b64Val_b64Char _ (by omega)
    have h3 : b64Val (b64Char (b % 16 * 4 + c / 64)) = some (b % 16 * 4 + c / 64) :=
      b64Val_b64Char _ (by omega)
    have h4 : b64Val (b64Char (c % 64)) = some (c % 64) := b64Val_b64Char _ (by omega)
    have hne3 : b64Char (b % 16 * 4 + c / 64) ≠ '=' := b64Char_ne_pad _ (by omega)
    have hne4 : b64Char (c % 64) ≠ '=' := b64Char_ne_pad _ (by omega)
    have e1 : a / 4 * 4 + (a % 4 * 16 + b / 16) / 16 = a := by omega
    have e2 : (a % 4 * 16 + b / 16) % 16 * 16 + (b % 16 * 4 + c / 64) / 4 = b := by omega
    have e3 : (b % 16 * 4 + c / 64) % 4 * 64 + c % 64 = c := by omega
    show decodeB64 (b64Char (a / 4) :: b64Char (a % 4 * 16 + b / 16) ::
      b64Char (b % 16 * 4 + c / 64) :: b64Char (c % 64) :: encodeB64 rest) =
      .ok (a :: b :: c :: rest)
    simp [decodeB64, h1, h2, h3, h4, hne3, hne4, ih, e1, e2, e3]

/-! Helper lemmas: separator normalization. -/

theorem contains_backslash_map (l : List Char) :
    (l.map fun c => if c = '\\' then '/' else c).contains '\\' = false := by
  induction l with
  | nil => rfl
  | cons a as ih =>
    simp only [List.map_cons, List.contains_cons, ih, Bool.or_false]
    by_cases hA : a = '\\'
    · simp [hA]
    · simp only [if_neg hA]
      exact beq_eq_false_iff_ne.mpr (fun he => hA he.symm)

theorem noBackslash_replaceBackslash (s : String) :
    noBackslash (replaceBackslash s) = true := by
  unfold noBackslash
  have he : (replaceBackslash s).toList = s.toList.map (fun c => if c = '\\' then '/' else c) :=
    rfl
  rw [he, contains_backslash_map]
  rfl

/-! The claims. -/

/-- C1 (corrected, counterexample): the claim that `list_system_fonts` always
returns a lexicographically sorted sequence fails when the OS font query
cannot be spawned: the hardcoded fallback list is returned as-is, and it is
not sorted. -/
theorem C1_counterexample :
    list_system_fonts (.spawnFailure "No such file or directory") = fallback_font_list ∧
    sortedLtB (list_system_fonts (.spawnFailure "No such file or directory")) = false :=
  ⟨rfl, by decide⟩

/-- C1 (amended): for every outcome of the underlying OS font query,
`list_system_fonts` returns a non-empty, duplicate-free sequence whose
elements are non-empty and carry no leading or trailing whitespace; the
sequence is sorted lexicographically except when it is the hardcoded
fallback list, which is returned in its fixed (unsorted) order. -/
theorem C1_fonts_invariants (q : SpawnOutcome) :
    list_system_fonts q ≠ [] ∧ (list_system_fonts q).Nodup ∧
    (list_system_fonts q).all goodFontName = true ∧
    (sortedLtB (list_system_fonts q) = true ∨ list_system_fonts q = fallback_font_list) := by
  have hfb1 : (fallback_font_list : List String) ≠ [] := by decide
  have hfb2 : fallback_font_list.Nodup := by decide
  have hfb3 : fallback_font_list.all goodFontName = true := by decide
  cases q with
  | spawnFailure e => exact ⟨hfb1, hfb2, hfb3, Or.inr rfl⟩
  | exited success stdout stderr =>
    cases success with
    | false => exact ⟨hfb1, hfb2, hfb3, Or.inr rfl⟩
    | true =>
      have hval : list_system_fonts (.exited true stdout stderr) =
          normalize_font_list (parse_system_profiler stdout) := rfl
      rw [hval]
      simp only [normalize_font_list]
      by_cases he : dedupSort (parse_system_profiler stdout) = []
      · rw [if_pos he]
        exact ⟨hfb1, hfb2, hfb3, Or.inr rfl⟩
      · rw [if_neg he]
        refine ⟨he, sortedLtB_nodup _ (dedupSort_sorted _), ?_,
          Or.inl (dedupSort_sorted _)⟩
        rw [List.all_eq_true]
        intro x hx
        exact dedupSort_good _ x hx

/-- C2 (corrected, counterexample): when the query fails the result is
exactly the hardcoded fallback list, but the claim that those 9 entries
come out in sorted order is false: the fallback list is not sorted. -/
theorem C2_counterexample :
    list_system_fonts (.exited false "" "fc-list: command failed") = fallback_font_list ∧
    sortedLtB fallback_font_list = false :=
  ⟨rfl, by decide⟩

/-- C2 (amended): whenever the OS font query fails (spawn error or non-zero
exit) or yields no usable names after normalization, `list_system_fonts`
returns exactly the hardcoded fallback list (the same 9 entries), in its
hardcoded order. -/
theorem C2_fallback_on_failure (q : SpawnOutcome)
    (h : fontQueryFailedOrEmpty q = true) : list_system_fonts q = fallback_font_list := by
  cases q with
  | spawnFailure e => rfl
  | exited success stdout stderr =>
    cases success with
    | false => rfl
    | true =>
      have he : dedupSort (parse_system_profiler stdout) = [] := by
        simpa [fontQueryFailedOrEmpty] using h
      show normalize_font_list (parse_system_profiler stdout) = fallback_font_list
      simp [normalize_font_list, he]

/-- C2 witness: the amended fallback theorem applied at a concrete spawn
failure. -/
theorem C2_fallback_on_failure_witness :
    fontQueryFailedOrEmpty (.spawnFailure "boom") = true ∧
    list_system_fonts (.spawnFailure "boom") = fallback_font_list :=
  ⟨rfl, C2_fallback_on_failure _ rfl⟩

/-- C3: reading a stored byte sequence through `read_file_base64` and
writing the returned payload back through `write_file_base64` at a new path
reproduces the bytes exactly (base64 decode inverts encode). -/
theorem C3_base64_roundtrip (fs : SimFS) (root p1 p2 osErr : String) (bytes : List Nat)
    (hfind : findFile fs.files (resolve_project_path root p1) = some bytes)
    (hbound : ∀ b ∈ bytes, b < 256) :
    ∃ payload : String,
      read_file_base64 fs root p1 osErr = .ok payload ∧
      ∃ fs' : SimFS,
        write_file_base64 fs root p2 payload = (fs', .ok ()) ∧
        findFile fs'.files (resolve_project_path root p2) = some bytes := by
  refine ⟨String.mk (encodeB64 bytes), ?_, ?_⟩
  · simp only [read_file_base64, hfind]
  · have hdec : decodeB64 (String.mk (encodeB64 bytes)).toList = .ok bytes :=
      decode_encode bytes hbound
    cases hp : parentPath (resolve_project_path root p2) with
    | none =>
      refine ⟨⟨(resolve_project_path root p2, bytes) :: fs.files, fs.dirs⟩, ?_, ?_⟩
      · simp only [write_file_base64, hp, hdec]
      · simp [findFile]
    | some parent =>
      refine ⟨⟨(resolve_project_path root p2, bytes) :: fs.files, parent :: fs.dirs⟩, ?_, ?_⟩
      · simp only [write_file_base64, hp, hdec]
      · simp [findFile]

/-- C3 witness: the round trip evaluated on a concrete three-byte file. -/
theorem C3_base64_roundtrip_witness :
    findFile [("/proj/a.bin", [255, 0, 10])] (resolve_project_path "/proj" "a.bin") =
      some [255, 0, 10] ∧
    (∀ b ∈ ([255, 0, 10] : List Nat), b < 256) ∧
    ∃ payload : String,
      read_file_base64 ⟨[("/proj/a.bin", [255, 0, 10])], []⟩ "/proj" "a.bin" "No such file" =
        .ok payload ∧
      ∃ fs' : SimFS,
        write_file_base64 ⟨[("/proj/a.bin", [255, 0, 10])], []⟩ "/proj" "b.bin" payload =
          (fs', .ok ()) ∧
        findFile fs'.files (resolve_project_path "/proj" "b.bin") = some [255, 0, 10] :=
  ⟨by decide, by decide,
    C3_base64_roundtrip ⟨[("/proj/a.bin", [255, 0, 10])], []⟩ "/proj" "a.bin" "b.bin"
      "No such file" [255, 0, 10] (by decide) (by decide)⟩

/-- C4: on a directory holding exactly `a.PNG`, `b.txt` and `sub/c.png`,
`list_png_files` returns `["a.PNG", "sub/c.png"]`: the extension matches
case-insensitively, non-png files are excluded, subdirectories are
traversed, the paths are relative and the result is sorted. -/
theorem C4_list_png_files_example :
    list_png_files "/proj" true
      [.file "a.PNG", .file "b.txt", .dir "sub" [.file "c.png"]] "/proj" =
      ["a.PNG", "sub/c.png"] := by
  simp only [list_png_files, collect_png_files]
  decide

/-- C5: for every command and argument list, a non-zero exit makes
`run_pipeline` return an error that contains the captured standard error
(it is exactly the captured standard error), and a zero exit returns the
captured standard output. -/
theorem C5_run_pipeline_output (command : String) (args : List String)
    (stdout stderr : String) :
    run_pipeline command args (.exited false stdout stderr) = .error stderr ∧
    containsStr stderr stderr = true ∧
    run_pipeline command args (.exited true stdout stderr) = .ok stdout :=
  ⟨rfl, containsStr_self stderr, rfl⟩

/-- C6: normalizing `["Arial", " Arial", "", "Arial "]` yields exactly
`["Arial"]`: names are trimmed, empties discarded, and the rest
deduplicated and sorted through the ordered set. -/
theorem C6_normalize_example :
    normalize_font_list ["Arial", " Arial", "", "Arial "] = ["Arial"] := by decide

/-- C7: an absolute input path is used as-is and a relative one is joined
onto the fixed project root, and every path returned by `list_png_files`
has backslash separators replaced by forward slashes. -/
theorem C7_path_resolution (root input : String) (present : Bool)
    (entries : List FsEntry) (path : String) :
    resolve_project_path root input =
      (if isAbsolutePath input then input else joinPath root input) ∧
    (list_png_files root present entries path).all noBackslash = true := by
  refine ⟨rfl, ?_⟩
  cases present with
  | false => rfl
  | true =>
    rw [List.all_eq_true]
    intro s hs
    have hs' : s ∈ (sortPaths (collect_png_files (resolve_project_path root path) entries)).map
        (fun f => replaceBackslash (stripRootPath root f)) := hs
    obtain ⟨f, _, rfl⟩ := List.mem_map.mp hs'
    exact noBackslash_replaceBackslash _

/-- C8 (corrected, counterexample): a directory-creation failure inside
`write_text_file` is reported as `failed to create parent dirs: ...` and a
process-spawn failure inside `run_pipeline` as `failed to execute node: ...`;
both contain the OS error text but not the offending path, contradicting
the claim that every OS/IO failure message includes the path. -/
theorem C8_counterexample :
    write_text_file "/proj" "out/a.txt" "hello"
        (.error "Permission denied (os error 13)") (.ok ()) =
      .error "failed to create parent dirs: Permission denied (os error 13)" ∧
    containsStr "failed to create parent dirs: Permission denied (os error 13)"
      (resolve_project_path "/proj" "out/a.txt") = false ∧
    containsStr "failed to create parent dirs: Permission denied (os error 13)"
      "out/a.txt" = false ∧
    run_pipeline "render" ["shot"] (.spawnFailure "No such file or directory (os error 2)") =
      .error "failed to execute node: No such file or directory (os error 2)" ∧
    containsStr "failed to execute node: No such file or directory (os error 2)"
      "scripts/pipeline.js" = false :=
  ⟨rfl, by decide, by decide, rfl, by decide⟩

/-- C8 (amended): file read and file write failures are surfaced as
descriptive strings containing both the resolved path and the OS error
text, while a process-spawn failure and a parent-directory-creation
failure are surfaced as messages containing the OS error text but not the
offending path. -/
theorem C8_error_messages (root path content osErr parent command : String)
    (args : List String)
    (hpar : parentPath (resolve_project_path root path) = some parent) :
    (read_text_file root path (.error osErr) =
        .error ("failed to read " ++ resolve_project_path root path ++ ": " ++ osErr)) ∧
    containsStr ("failed to read " ++ resolve_project_path root path ++ ": " ++ osErr)
      (resolve_project_path root path) = true ∧
    containsStr ("failed to read " ++ resolve_project_path root path ++ ": " ++ osErr)
      osErr = true ∧
    (write_text_file root path content (.ok ()) (.error osErr) =
        .error ("failed to write " ++ resolve_project_path root path ++ ": " ++ osErr)) ∧
    containsStr ("failed to write " ++ resolve_project_path root path ++ ": " ++ osErr)
      (resolve_project_path root path) = true ∧
    containsStr ("failed to write " ++ resolve_project_path root path ++ ": " ++ osErr)
      osErr = true ∧
    (write_text_file root path content (.error osErr) (.ok ()) =
        .error ("failed to create parent dirs: " ++ osErr)) ∧
    containsStr ("failed to create parent dirs: " ++ osErr) osErr = true ∧
    (run_pipeline command args (.spawnFailure osErr) =
        .error ("failed to execute node: " ++ osErr)) ∧
    containsStr ("failed to execute node: " ++ osErr) osErr = true := by
  refine ⟨rfl, ?_, ?_, ?_, ?_, ?_, ?_, ?_, rfl, ?_⟩
  · rw [strAppend_assoc ("failed to read " ++ resolve_project_path root path) ": " osErr]
    exact containsStr_append "failed to read " (resolve_project_path root path)
      (": " ++ osErr)
  · have h := containsStr_append
      ("failed to read " ++ resolve_project_path root path ++ ": ") osErr ""
    simpa using h
  · simp only [write_text_file, hpar]
  · rw [strAppend_assoc ("failed to write " ++ resolve_project_path root path) ": " osErr]
    exact containsStr_append "failed to write " (resolve_project_path root path)
      (": " ++ osErr)
  · have h := containsStr_append
      ("failed to write " ++ resolve_project_path root path ++ ": ") osErr ""
    simpa using h
  · simp only [write_text_file, hpar]
  · have h := containsStr_append "failed to create parent dirs: " osErr ""
    simpa using h
  · have h := containsStr_append "failed to execute node: " osErr ""
    simpa using h

/-- C8 witness: the amended error-message theorem applied at a concrete
path, command and OS error. -/
theorem C8_error_messages_witness :
    parentPath (resolve_project_path "/p" "a/b.txt") = some "/p/a" ∧
    ((read_text_file "/p" "a/b.txt" (.error "boom") =
        .error ("failed to read " ++ resolve_project_path "/p" "a/b.txt" ++ ": " ++ "boom")) ∧
      containsStr ("failed to read " ++ resolve_project_path "/p" "a/b.txt" ++ ": " ++ "boom")
        (resolve_project_path "/p" "a/b.txt") = true ∧
      containsStr ("failed to read " ++ resolve_project_path "/p" "a/b.txt" ++ ": " ++ "boom")
        "boom" = true ∧
      (write_text_file "/p" "a/b.txt" "c" (.ok ()) (.error "boom") =
        .error ("failed to write " ++ resolve_project_path "/p" "a/b.txt" ++ ": " ++ "boom")) ∧
      containsStr ("failed to write " ++ resolve_project_path "/p" "a/b.txt" ++ ": " ++ "boom")
        (resolve_project_path "/p" "a/b.txt") = true ∧
      containsStr ("failed to write " ++ resolve_project_path "/p" "a/b.txt" ++ ": " ++ "boom")
        "boom" = true ∧
      (write_text_file "/p" "a/b.txt" "c" (.error "boom") (.ok ()) =
        .error ("failed to create parent dirs: " ++ "boom")) ∧
      containsStr ("failed to create parent dirs: " ++ "boom") "boom" = true ∧
      (run_pipeline "render" ["shot"] (.spawnFailure "boom") =
        .error ("failed to execute node: " ++ "boom")) ∧
      containsStr ("failed to execute node: " ++ "boom") "boom" = true) :=
  ⟨by decide, C8_error_messages "/p" "a/b.txt" "c" "boom" "/p/a" "render" ["shot"] (by decide)⟩

/-- C9: when the resolved directory does not exist, `list_png_files`
returns the empty sequence rather than an error. -/
theorem C9_missing_dir_empty (root : String) (entries : List FsEntry) (path : String) :
    list_png_files root false entries path = [] := rfl

/-- C10: `write_file_base64` creates the resolved path's parent directory
before decoding the payload, so an invalid payload yields a decode error
with the target file unwritten while the parent directory has already been
created. -/
theorem C10_write_base64_order (fs : SimFS) (root path dataB64 parent e : String)
    (hpar : parentPath (resolve_project_path root path) = some parent)
    (hdec : decodeB64 dataB64.toList = .error e) :
    write_file_base64 fs root path dataB64 =
      ({ fs with dirs := parent :: fs.dirs }, .error ("failed to decode base64: " ++ e)) := by
  simp only [write_file_base64, hpar, hdec]

/-- C10 witness: a concrete invalid payload leaves the file map untouched
but the created parent directory behind. -/
theorem C10_write_base64_order_witness :
    parentPath (resolve_project_path "/proj" "out/im.png") = some "/proj/out" ∧
    decodeB64 ("!!!!" : String).toList = .error "Invalid symbol" ∧
    write_file_base64 ⟨[], []⟩ "/proj" "out/im.png" "!!!!" =
      (⟨[], ["/proj/out"]⟩, .error ("failed to decode base64: " ++ "Invalid symbol")) :=
  ⟨rfl, rfl,
    C10_write_base64_order ⟨[], []⟩ "/proj" "out/im.png" "!!!!" "/proj/out" "Invalid symbol"
      rfl rfl⟩
